import Mathlib

/-!
Verification of the incremental HTML-report pipeline of `coverage/html.py`:
the `IncrementalChecker` status cache, the package-tree aggregation of
`HtmlReporter`, the per-line categorization of `HtmlDataGeneration`, and the
control flow of `HtmlReporter.report` / `HtmlReporter.html_file`.

The embedding is shallow: Python dicts become insertion-ordered association
lists, the status file content becomes an explicit `Json` value (`none` stands
for a file that is missing, unreadable, or not parseable, which Python
surfaces as a caught `OSError`/`ValueError`), and exceptions that the source
does not catch become an explicit `Except PyErr` result.
-/

/-- A Python `dict` lookup: first binding of the key, if any. -/
def dictGet {κ α : Type} [DecidableEq κ] (d : List (κ × α)) (k : κ) : Option α :=
  (d.find? (fun p => p.1 = k)).map (·.2)

/-- A Python `dict` assignment `d[k] = v`: replace the binding in place if the
key is present, otherwise append a new binding at the end. -/
def dictSet {κ α : Type} [DecidableEq κ] : List (κ × α) → κ → α → List (κ × α)
  | [], k, v => [(k, v)]
  | (k', v') :: rest, k, v =>
    if k' = k then (k, v) :: rest else (k', v') :: dictSet rest k v

/-- Splitting the characters of a string at a separator, keeping empty pieces,
with `acc` the characters of the current piece in reverse. -/
def splitChar (sep : Char) : List Char → List Char → List String
  | [], acc => [String.mk acc.reverse]
  | c :: rest, acc =>
    if c = sep then String.mk acc.reverse :: splitChar sep rest []
    else splitChar sep rest (c :: acc)

/-- Python's `s.split(sep)` for a one-character separator, as used by
`add_module_to_tree` with `os.path.sep` (html.py line 385). -/
def pySplit (s : String) (sep : Char) : List String :=
  splitChar sep s.toList []

/-- Modelled from the spec: `Numbers` (from `coverage.results`, outside this
excerpt) is an immutable tuple of coverage counters whose addition forms a
monoid; the counters the spec names are statements, missing, branches and
partial branches. -/
structure Numbers where
  n_statements : Int := 0
  n_missing : Int := 0
  n_branches : Int := 0
  n_partial_branches : Int := 0
  deriving Repr, DecidableEq

/-- Modelled from the spec: componentwise addition of the counters, the
monoid operation used by `sum`. -/
def Numbers.add (a b : Numbers) : Numbers :=
  ⟨a.n_statements + b.n_statements, a.n_missing + b.n_missing,
   a.n_branches + b.n_branches, a.n_partial_branches + b.n_partial_branches⟩

/-- The all-zero `Numbers()`, the identity of the monoid and Python's
`sum` start value. -/
def Numbers.zero : Numbers := ⟨0, 0, 0, 0⟩

/-- Python's `sum(list_of_Numbers)`: a left fold of the addition starting
from zero. -/
def Numbers.sum (l : List Numbers) : Numbers :=
  l.foldl Numbers.add Numbers.zero

/-- Modelled from the spec: `Numbers.init_args`, the fixed-order numeric
sequence embedded in the persisted status file for a `Numbers` value. -/
def Numbers.init_args (n : Numbers) : List Int :=
  [n.n_statements, n.n_missing, n.n_branches, n.n_partial_branches]

/-- Modelled from the spec: `Numbers(*args)`, rebuilding a `Numbers` from its
persisted argument sequence; any other shape is a construction error. -/
def Numbers.ofArgs : List Int → Option Numbers
  | [s, m, b, pb] => some ⟨s, m, b, pb⟩
  | _ => none

/-- A parsed JSON value, the result of `json.load` on the status file. -/
inductive Json : Type where
  | num : Int → Json
  | str : String → Json
  | arr : List Json → Json
  | obj : List (String × Json) → Json
  deriving Repr

/-- The Python exceptions that `html.py` lets escape (it catches only
`OSError` and `ValueError`, inside `IncrementalChecker.read`). -/
inductive PyErr : Type where
  | keyError : String → PyErr
  | typeError : PyErr
  | attributeError : PyErr
  | coverageError : String → PyErr
  deriving Repr, DecidableEq

/-- Python subscription `j[k]` with a string key: a `KeyError` on an object
without the key, a `TypeError` on any non-object. -/
def jGetItem (j : Json) (k : String) : Except PyErr Json :=
  match j with
  | .obj kvs =>
    match dictGet kvs k with
    | some v => Except.ok v
    | none => Except.error (PyErr.keyError k)
  | _ => Except.error PyErr.typeError

/-- Python's `j.items()`: the bindings of an object, an `AttributeError` on
any other value. -/
def jItems (j : Json) : Except PyErr (List (String × Json)) :=
  match j with
  | .obj kvs => Except.ok kvs
  | _ => Except.error PyErr.attributeError

/-- The comparison `status["format"] == STATUS_FORMAT` with
`STATUS_FORMAT = 2` (html.py line 548): only the JSON number 2 passes. -/
def isFormat2 : Json → Bool
  | .num n => n == 2
  | _ => false

/-- The comparison `status["version"] == coverage.__version__`
(html.py line 550): only the JSON string equal to the tool version passes. -/
def isVersionStr (version : String) : Json → Bool
  | .str s => s == version
  | _ => false

/-- Python `==` between a string and an arbitrary JSON-shaped value: true
exactly on the equal string. -/
def jsonIsStr (s : String) : Json → Bool
  | .str t => s == t
  | _ => false

/-- The per-file record written by `set_index_info` (html.py lines 372-376)
and persisted under the `index` key of the status file: the model fixes the
record to this shape, which is the only one the program ever stores. -/
structure IndexInfo where
  nums : Numbers
  html_filename : String
  relative_filename : String
  deriving Repr, DecidableEq

/-- One value of the `files` mapping of an `IncrementalChecker`: a dict that
may hold a `hash` entry (kept as the raw JSON value read back from disk) and
an `index` entry. -/
structure FileInfo where
  hash : Option Json := none
  index : Option IndexInfo := none
  deriving Repr

/-- The mutable state of an `IncrementalChecker`: the stored global
fingerprint (an arbitrary JSON value once read back from disk) and the
per-file mapping. -/
structure CheckerState where
  globals : Json
  files : List (String × FileInfo)
  deriving Repr

namespace IncrementalChecker

/-- `IncrementalChecker.reset` (html.py lines 532-535): the empty-cache
state, `globals = ''` and `files = {}`. -/
def reset : CheckerState :=
  ⟨Json.str "", []⟩

/-- `IncrementalChecker.file_hash` (html.py lines 609-611):
`self.files.get(fname, {}).get('hash', '')`. -/
def file_hash (st : CheckerState) (fname : String) : Json :=
  match dictGet st.files fname with
  | some fi => fi.hash.getD (Json.str "")
  | none => Json.str ""

/-- `IncrementalChecker.set_file_hash` (html.py lines 613-615):
`self.files.setdefault(fname, {})['hash'] = val`. -/
def set_file_hash (st : CheckerState) (fname : String) (val : String) : CheckerState :=
  let fi := (dictGet st.files fname).getD {}
  ⟨st.globals, dictSet st.files fname { fi with hash := some (Json.str val) }⟩

/-- `IncrementalChecker.index_info` (html.py lines 617-619): the stored index
record, `none` standing for the `{}` default. -/
def index_info (st : CheckerState) (fname : String) : Option IndexInfo :=
  (dictGet st.files fname).bind (·.index)

/-- `IncrementalChecker.set_index_info` (html.py lines 621-623):
`self.files.setdefault(fname, {})['index'] = info`. -/
def set_index_info (st : CheckerState) (fname : String) (info : IndexInfo) : CheckerState :=
  let fi := (dictGet st.files fname).getD {}
  ⟨st.globals, dictSet st.files fname { fi with index := some info }⟩

/-- `IncrementalChecker.can_skip_file` (html.py lines 589-607), with the
fingerprint `this_hash` — computed there by hashing the file's source text
and its coverage data, both external to this excerpt — passed in as a value.
Returns the decision together with the updated state. -/
def can_skip_file (st : CheckerState) (rootname : String) (this_hash : String) :
    Bool × CheckerState :=
  if jsonIsStr this_hash (file_hash st rootname) then (true, st)
  else (false, set_file_hash st rootname this_hash)

/-- `IncrementalChecker.check_global_data` (html.py lines 579-587), with the
hash digest `these_globals` of the configuration data — the `Hasher` is
external to this excerpt — passed in as a value. -/
def check_global_data (st : CheckerState) (these_globals : String) : CheckerState :=
  if jsonIsStr these_globals st.globals then st
  else ⟨Json.str these_globals, []⟩

/-- The conversion `Numbers(*fileinfo['index']['nums'])` of `read`
(html.py line 556): the stored value must be an array of numbers of the
constructor's arity. -/
def parseNums (j : Json) : Except PyErr Numbers :=
  match j with
  | .arr xs =>
    match (xs.mapM (fun x => match x with | Json.num n => some n | _ => none)).bind Numbers.ofArgs with
    | some nums => Except.ok nums
    | none => Except.error PyErr.typeError
  | _ => Except.error PyErr.typeError

/-- Reading one stored `index` record back. The model fixes the record to the
shape `set_index_info` stores (nums, html_filename, relative_filename);
Python itself only demands the `nums` key here and would carry any other
fields along untouched, but this program never writes any other shape. -/
def parseIndex (j : Json) : Except PyErr IndexInfo :=
  match j with
  | .obj kvs =>
    match dictGet kvs "nums" with
    | none => Except.error (PyErr.keyError "nums")
    | some nj => do
      let nums ← parseNums nj
      match dictGet kvs "html_filename", dictGet kvs "relative_filename" with
      | some (.str h), some (.str r) => Except.ok ⟨nums, h, r⟩
      | _, _ => Except.error PyErr.typeError
  | _ => Except.error PyErr.typeError

/-- Reading one value of the stored `files` mapping back: the loop body of
`read` demands an `index` entry holding the `nums`, and keeps the `hash`
entry (of any JSON shape) as it is. -/
def parseFileInfo (j : Json) : Except PyErr FileInfo :=
  match j with
  | .obj kvs =>
    match dictGet kvs "index" with
    | none => Except.error (PyErr.keyError "index")
    | some idxj => do
      let idx ← parseIndex idxj
      Except.ok ⟨dictGet kvs "hash", some idx⟩
  | _ => Except.error PyErr.typeError

/-- The `for filename, fileinfo in status['files'].items()` loop of `read`
(html.py lines 554-557), inserting into the fresh `self.files` dict. -/
def parseFilesGo (acc : List (String × FileInfo)) :
    List (String × Json) → Except PyErr (List (String × FileInfo))
  | [] => Except.ok acc
  | (k, v) :: rest => do
    let fi ← parseFileInfo v
    parseFilesGo (dictSet acc k fi) rest

/-- `IncrementalChecker.read` (html.py lines 537-560). The input is the
parsed content of the status file, `none` when opening or parsing raised the
caught `OSError`/`ValueError`; `version` is `coverage.__version__`. An
`Except.error` result is an exception the source does not catch. -/
def read (input : Option Json) (version : String) : Except PyErr CheckerState :=
  match input with
  | none => Except.ok reset
  | some status => do
    let fmt ← jGetItem status "format"
    let usable ←
      if isFormat2 fmt then do
        let ver ← jGetItem status "version"
        pure (isVersionStr version ver)
      else
        pure false
    if usable then do
      let filesJ ← jGetItem status "files"
      let fkvs ← jItems filesJ
      let files ← parseFilesGo [] fkvs
      let g ← jGetItem status "globals"
      Except.ok ⟨g, files⟩
    else
      Except.ok reset

/-- The serialization of a `Numbers` value in `write`:
`fileinfo['index']['nums'].init_args()` (html.py line 567). -/
def numsToJson (n : Numbers) : Json :=
  Json.arr (n.init_args.map Json.num)

/-- The serialization of one `index` record, in the key order of the dict
literal that created it (html.py lines 372-376). -/
def indexToJson (i : IndexInfo) : Json :=
  Json.obj [("nums", numsToJson i.nums), ("html_filename", Json.str i.html_filename),
    ("relative_filename", Json.str i.relative_filename)]

/-- The serialization of one `files` value in `write`: the `index` entry must
be present (`fileinfo['index']` raises a `KeyError` otherwise), the `hash`
entry is written when present. -/
def fileInfoToJson (fi : FileInfo) : Except PyErr Json :=
  match fi.index with
  | none => Except.error (PyErr.keyError "index")
  | some idx =>
    Except.ok (Json.obj
      ((match fi.hash with | some h => [("hash", h)] | none => []) ++
        [("index", indexToJson idx)]))

/-- The `for filename, fileinfo in self.files.items()` loop of `write`
(html.py lines 565-568), in iteration order. -/
def filesToJson : List (String × FileInfo) → Except PyErr (List (String × Json))
  | [] => Except.ok []
  | (k, fi) :: rest => do
    let j ← fileInfoToJson fi
    let r ← filesToJson rest
    Except.ok ((k, j) :: r)

/-- `IncrementalChecker.write` (html.py lines 562-577), modelled as the JSON
value handed to `json.dump`; `version` is `coverage.__version__`. The
source's in-place rewrite of each `nums` to its `init_args()` list only
feeds this serialization, so the model keeps the in-memory state apart. -/
def write (st : CheckerState) (version : String) : Except PyErr Json := do
  let files ← filesToJson st.files
  Except.ok (Json.obj [("format", Json.num 2), ("version", Json.str version),
    ("globals", st.globals), ("files", Json.obj files)])

end IncrementalChecker

/-- A node of the package tree: the five entries of the dicts built by
`add_module_to_tree` and `_new_branch` (html.py lines 381-406), with the
children an insertion-ordered mapping from path segment to child node. -/
inductive TreeInfo : Type where
  | mk : Numbers → String → String → Bool → List (String × TreeInfo) → TreeInfo
  deriving Repr

/-- The `nums` entry of a tree node. -/
def TreeInfo.nums : TreeInfo → Numbers
  | .mk n _ _ _ _ => n

/-- The `html_filename` entry of a tree node. -/
def TreeInfo.html_filename : TreeInfo → String
  | .mk _ h _ _ _ => h

/-- The `relative_filename` entry of a tree node, the display path. -/
def TreeInfo.relative_filename : TreeInfo → String
  | .mk _ _ r _ _ => r

/-- The `is_package` entry of a tree node. -/
def TreeInfo.is_package : TreeInfo → Bool
  | .mk _ _ _ p _ => p

/-- The `children` entry of a tree node. -/
def TreeInfo.children : TreeInfo → List (String × TreeInfo)
  | .mk _ _ _ _ cs => cs

/-- Replacing the `children` entry of a tree node. -/
def TreeInfo.setChildren : TreeInfo → List (String × TreeInfo) → TreeInfo
  | .mk n h r p _, cs => .mk n h r p cs

/-- `HtmlReporter._new_branch` (html.py lines 398-406): a fresh package node
with zero `Numbers`, no HTML file and no children. -/
def new_branch (rel : String) : TreeInfo :=
  .mk Numbers.zero "" rel true []

/-- The `tree_info` leaf built at the start of `add_module_to_tree`
(html.py lines 382-384): the index record plus `is_package = False` and an
empty children mapping. -/
def leafOf (info : IndexInfo) : TreeInfo :=
  .mk info.nums info.html_filename info.relative_filename false []

/-- The same leaf after `branch['relative_filename'] = r` (html.py line 416):
its display path is the final path segment. -/
def leafOfAt (info : IndexInfo) (r : String) : TreeInfo :=
  .mk info.nums info.html_filename r false []

/-- `HtmlReporter._add_module_to_branch` (html.py lines 408-421): descend the
remaining path segments, creating package nodes as needed, attaching the
leaf at the final segment, and leaving an already-present final segment
untouched. -/
def add_module_to_branch (parent : TreeInfo) :
    List String → IndexInfo → TreeInfo
  | [], _ => parent
  | [r], info =>
    match dictGet parent.children r with
    | some _ => parent
    | none => parent.setChildren (dictSet parent.children r (leafOfAt info r))
  | r :: rest :: rests, info =>
    let branch := (dictGet parent.children r).getD (new_branch r)
    parent.setChildren
      (dictSet parent.children r (add_module_to_branch branch (rest :: rests) info))

/-- `HtmlReporter.add_module_to_tree` (html.py lines 381-396) acting on the
`package_tree` mapping: split the relative path on the separator, root the
entry at the first segment. -/
def add_module_to_tree (pt : List (String × TreeInfo)) (info : IndexInfo) :
    List (String × TreeInfo) :=
  match pySplit info.relative_filename '/' with
  | [] => pt
  | [r] =>
    match dictGet pt r with
    | some _ => pt
    | none => dictSet pt r (leafOf info)
  | r :: rest :: rests =>
    let branch := (dictGet pt r).getD (new_branch r)
    dictSet pt r (add_module_to_branch branch (rest :: rests) info)

/-- The package tree grown by reporting the given files in order, each one
passed through `add_module_to_tree`. -/
def buildTree (infos : List IndexInfo) : List (String × TreeInfo) :=
  infos.foldl add_module_to_tree []

mutual

/-- `HtmlReporter._sum_branch` (html.py lines 282-288): recurse into the
children that have children of their own, then set this node's `nums` to the
sum of all (post-recursion) child `nums`. -/
def sum_branch : TreeInfo → TreeInfo
  | .mk _ h r p cs =>
    let cs' := sumChildren cs
    .mk (Numbers.sum (cs'.map (fun q => q.2.nums))) h r p cs'

/-- The `for child_info in tree_info['children'].values()` loop of
`_sum_branch`: a child is recursed into only when it has children. -/
def sumChildren : List (String × TreeInfo) → List (String × TreeInfo)
  | [] => []
  | (k, c) :: rest =>
    (k, if c.children.isEmpty then c else sum_branch c) :: sumChildren rest

end

/-- `HtmlReporter.sum_package_tree` (html.py lines 276-280): each root with
children is summed, root leaves are left alone. -/
def sum_package_tree (pt : List (String × TreeInfo)) : List (String × TreeInfo) :=
  pt.map (fun p => (p.1, if p.2.children.isEmpty then p.2 else sum_branch p.2))

mutual

/-- `HtmlReporter._merge_branch_folders` (html.py lines 439-448): merge all
children first, then, if there is exactly one child and it has children of
its own, adopt that child's children and join the display paths with the
path separator. -/
def merge_branch_folders : TreeInfo → TreeInfo
  | .mk n h r p cs =>
    match mergeChildren cs with
    | [(path, c)] =>
      if c.children.isEmpty then .mk n h r p [(path, c)]
      else .mk n h (r ++ "/" ++ c.relative_filename) p c.children
    | cs' => .mk n h r p cs'

/-- The `for child_info in tree_info['children'].values()` loop of
`_merge_branch_folders`. -/
def mergeChildren : List (String × TreeInfo) → List (String × TreeInfo)
  | [] => []
  | (k, c) :: rest => (k, merge_branch_folders c) :: mergeChildren rest

end

/-- `HtmlReporter.merge_single_folders` (html.py lines 423-437): merge every
root's subtree. -/
def merge_single_folders (pt : List (String × TreeInfo)) : List (String × TreeInfo) :=
  pt.map (fun p => (p.1, merge_branch_folders p.2))

mutual

/-- The leaf nodes (nodes with an empty children mapping) of a subtree, in
left-to-right order. -/
def leavesB : TreeInfo → List TreeInfo
  | .mk n h r p cs =>
    match cs with
    | [] => [.mk n h r p []]
    | c :: rest => leavesChildren (c :: rest)

/-- The leaf nodes under a children mapping. -/
def leavesChildren : List (String × TreeInfo) → List TreeInfo
  | [] => []
  | (_, c) :: rest => leavesB c ++ leavesChildren rest

end

/-- The leaf nodes of the whole package tree. -/
def leavesTree (pt : List (String × TreeInfo)) : List TreeInfo :=
  pt.foldr (fun p acc => leavesB p.2 ++ acc) []

mutual

/-- The `nums` of every node of a subtree, in preorder. -/
def nodeNumsB : TreeInfo → List Numbers
  | .mk n _ _ _ cs => n :: nodeNumsChildren cs

/-- The `nums` of every node under a children mapping, in preorder. -/
def nodeNumsChildren : List (String × TreeInfo) → List Numbers
  | [] => []
  | (_, c) :: rest => nodeNumsB c ++ nodeNumsChildren rest

end

mutual

/-- Whether every node of a subtree with a non-empty children mapping has
its `nums` equal to the monoid sum of its children's `nums`. -/
def summedB : TreeInfo → Bool
  | .mk n _ _ _ cs =>
    (cs.isEmpty || (n = Numbers.sum (cs.map (fun q => q.2.nums)))) && summedChildren cs

/-- `summedB` at every node under a children mapping. -/
def summedChildren : List (String × TreeInfo) → Bool
  | [] => true
  | (_, c) :: rest => summedB c && summedChildren rest

end

/-- Whether a children mapping is not a single internal child: either it is
not a singleton, or its one child is a leaf. -/
def singleChildOk : List (String × TreeInfo) → Bool
  | [(_, c)] => c.children.isEmpty
  | _ => true

mutual

/-- Whether no node of a subtree has exactly one child whose own children
mapping is non-empty: the shape an exhaustive single-folder merge leaves. -/
def mergedB : TreeInfo → Bool
  | .mk _ _ _ _ cs => singleChildOk cs && mergedChildren cs

/-- `mergedB` at every node under a children mapping. -/
def mergedChildren : List (String × TreeInfo) → Bool
  | [] => true
  | (_, c) :: rest => mergedB c && mergedChildren rest

end

/-- The per-file analysis sets consumed by `data_for_file`
(html.py lines 91-121): statement, missing and excluded line numbers, and
the missing-branch-arcs mapping from line number to branch destinations. -/
structure AnalysisData where
  statements : List Int
  missing : List Int
  excluded : List Int
  missing_branch_arcs : List (Int × List Int)
  deriving Repr, DecidableEq

/-- A line category, the CSS marker chosen by `data_for_file`. -/
inductive Category : Type where
  | exc
  | mis
  | par
  | run
  deriving Repr, DecidableEq

/-- One short branch annotation: `"exit"` for a negative destination, the
destination line number otherwise (html.py lines 114-118). -/
inductive ShortAnn : Type where
  | exit
  | target : Int → ShortAnn
  deriving Repr, DecidableEq

/-- The category chain of `data_for_file` (html.py lines 104-121): excluded,
else missing, else (with arcs measured) partial branch, else executed, else
no category. -/
def categoryFor (has_arcs : Bool) (a : AnalysisData) (lineno : Int) : Option Category :=
  if a.excluded.contains lineno then some Category.exc
  else if a.missing.contains lineno then some Category.mis
  else if has_arcs && (dictGet a.missing_branch_arcs lineno).isSome then some Category.par
  else if a.statements.contains lineno then some Category.run
  else none

/-- The short annotations collected for a partial-branch line
(html.py lines 114-118). -/
def shortAnnotationsFor (has_arcs : Bool) (a : AnalysisData) (lineno : Int) :
    List ShortAnn :=
  match categoryFor has_arcs a lineno with
  | some Category.par =>
    ((dictGet a.missing_branch_arcs lineno).getD []).map
      (fun b => if b < 0 then ShortAnn.exit else ShortAnn.target b)
  | _ => []

/-- One record of the `lines` list built by `data_for_file`; the annotations
and context labels drawn from external collaborators (the file reporter's
token stream, `missing_arc_description`, `contexts_by_lineno`) are outside
the model. -/
structure LineData where
  number : Int
  category : Option Category
  statement : Bool
  short_annotations : List ShortAnn
  deriving Repr, DecidableEq

/-- `HtmlDataGeneration.data_for_file` (html.py lines 91-151) restricted to
its computed line classification: one record per source line, numbered from
1, where `numLines` is the number of source lines the file reporter yields. -/
def data_for_file (has_arcs : Bool) (a : AnalysisData) (numLines : Nat) :
    List LineData :=
  (List.range numLines).map (fun i =>
    let lineno : Int := (i : Int) + 1
    ⟨lineno, categoryFor has_arcs a lineno, a.statements.contains lineno,
      shortAnnotationsFor has_arcs a lineno⟩)

/-- The inputs `html_file` draws per reported file: the relative path and the
flat root name (`flat_rootname`, external to this excerpt), the file's
`analysis.numbers`, and the content fingerprint `can_skip_file` computes
from the source text and coverage data (both external). -/
structure FileToReport where
  relative_filename : String
  rootname : String
  nums : Numbers
  this_hash : String
  deriving Repr

/-- The mutable state of one `HtmlReporter` pass: the skip options resolved
in `__init__`, the running `all_files_nums` list, the index summaries, the
package tree and the incremental checker. -/
structure ReporterState where
  skip_covered : Bool
  skip_empty : Bool
  all_files_nums : List Numbers
  file_summaries : List IndexInfo
  package_tree : List (String × TreeInfo)
  incr : CheckerState
  deriving Repr

/-- `HtmlReporter.html_file` (html.py lines 290-379) restricted to its state
effects: append the file's `Numbers`, then return early under `skip_covered`
on a fully covered file or under `skip_empty` on a file with no statements,
then either reuse the cached summary (`can_skip_file` true) or record the
freshly rendered file's summary. A missing cached index record surfaces as
the `KeyError` that `add_module_to_tree` raises on the `{}` default. -/
def html_file (rs : ReporterState) (f : FileToReport) : Except PyErr ReporterState :=
  let rs := { rs with all_files_nums := rs.all_files_nums ++ [f.nums] }
  if rs.skip_covered && (f.nums.n_missing == 0) && (f.nums.n_partial_branches == 0) then
    Except.ok rs
  else if rs.skip_empty && (f.nums.n_statements == 0) then
    Except.ok rs
  else
    match IncrementalChecker.can_skip_file rs.incr f.rootname f.this_hash with
    | (true, incr) =>
      match IncrementalChecker.index_info incr f.rootname with
      | none => Except.error (PyErr.keyError "relative_filename")
      | some info =>
        Except.ok { rs with
          incr := incr,
          file_summaries := rs.file_summaries ++ [info],
          package_tree := add_module_to_tree rs.package_tree info }
    | (false, incr) =>
      let info : IndexInfo := ⟨f.nums, f.rootname ++ ".html", f.relative_filename⟩
      Except.ok { rs with
        incr := IncrementalChecker.set_index_info incr f.rootname info,
        file_summaries := rs.file_summaries ++ [info],
        package_tree := add_module_to_tree rs.package_tree info }

/-- `HtmlReporter.report` (html.py lines 231-258) restricted to its state
effects and error behavior: read the status, check the global fingerprint
(`globals_fp`, the digest of the configuration and template, hashed by the
external `Hasher`), process every file yielded by `get_analysis_to_report`,
raise `CoverageException("No data to report.")` when no file was analysed,
then total, sum and merge. Returns the final state and the report totals. -/
def report (skip_covered skip_empty : Bool) (statusInput : Option Json)
    (version globals_fp : String) (files : List FileToReport) :
    Except PyErr (ReporterState × Numbers) := do
  let incr ← IncrementalChecker.read statusInput version
  let incr := IncrementalChecker.check_global_data incr globals_fp
  let rs : ReporterState := ⟨skip_covered, skip_empty, [], [], [], incr⟩
  let rs ← files.foldlM html_file rs
  if rs.all_files_nums.isEmpty then
    Except.error (PyErr.coverageError "No data to report.")
  else
    let totals := Numbers.sum rs.all_files_nums
    let rs := { rs with package_tree := merge_single_folders (sum_package_tree rs.package_tree) }
    Except.ok (rs, totals)

theorem dictGet_dictSet_self {κ α : Type} [DecidableEq κ]
    (d : List (κ × α)) (k : κ) (v : α) : dictGet (dictSet d k v) k = some v := by
  induction d with
  | nil => simp [dictGet, dictSet, List.find?]
  | cons p rest ih =>
    obtain ⟨k', v'⟩ := p
    by_cases h : k' = k
    · subst h
      simp [dictGet, dictSet, List.find?]
    · simp only [dictSet, if_neg h]
      simpa [dictGet, List.find?, h] using ih

theorem dictSet_of_not_mem {κ α : Type} [DecidableEq κ]
    (d : List (κ × α)) (k : κ) (v : α) (h : k ∉ d.map Prod.fst) :
    dictSet d k v = d ++ [(k, v)] := by
  induction d with
  | nil => simp [dictSet]
  | cons p rest ih =>
    obtain ⟨k', v'⟩ := p
    simp only [List.map_cons, List.mem_cons] at h
    push_neg at h
    simp [dictSet, Ne.symm h.1, ih h.2]

theorem jsonIsStr_iff (s : String) (j : Json) : jsonIsStr s j = true ↔ j = Json.str s := by
  cases j with
  | str t =>
    simp only [jsonIsStr, beq_iff_eq, Json.str.injEq]
    exact ⟨fun h => h.symm, fun h => h.symm⟩
  | num n => simp [jsonIsStr]
  | arr xs => simp [jsonIsStr]
  | obj kvs => simp [jsonIsStr]

theorem isFormat2_iff (j : Json) : isFormat2 j = true ↔ j = Json.num 2 := by
  cases j with
  | num n => simp [isFormat2]
  | str s => simp [isFormat2]
  | arr xs => simp [isFormat2]
  | obj kvs => simp [isFormat2]

theorem isVersionStr_iff (v : String) (j : Json) :
    isVersionStr v j = true ↔ j = Json.str v := by
  cases j with
  | str t => simp only [isVersionStr, beq_iff_eq, Json.str.injEq]
  | num n => simp [isVersionStr]
  | arr xs => simp [isVersionStr]
  | obj kvs => simp [isVersionStr]

/-- C3: `can_skip_file` returns true exactly when the computed fingerprint
equals the stored one (an absent entry counting as the empty-string
fingerprint), and afterwards the stored fingerprint equals the computed one
in both cases. -/
theorem C3_can_skip_file_reports_and_updates (st : CheckerState) (key fp : String) :
    ((IncrementalChecker.can_skip_file st key fp).1 = true ↔
      IncrementalChecker.file_hash st key = Json.str fp)
    ∧ IncrementalChecker.file_hash (IncrementalChecker.can_skip_file st key fp).2 key
        = Json.str fp
    ∧ (dictGet st.files key = none →
        IncrementalChecker.file_hash st key = Json.str "")
    ∧ (dictGet st.files key = none → fp ≠ "" →
        (IncrementalChecker.can_skip_file st key fp).1 = false) := by
  have hupd : IncrementalChecker.file_hash
      (IncrementalChecker.set_file_hash st key fp) key = Json.str fp := by
    simp [IncrementalChecker.file_hash, IncrementalChecker.set_file_hash,
      dictGet_dictSet_self]
  have habsent : dictGet st.files key = none →
      IncrementalChecker.file_hash st key = Json.str "" := by
    intro h
    simp [IncrementalChecker.file_hash, h]
  by_cases h : IncrementalChecker.file_hash st key = Json.str fp
  · have hb : jsonIsStr fp (IncrementalChecker.file_hash st key) = true :=
      (jsonIsStr_iff fp _).mpr h
    have hskip : IncrementalChecker.can_skip_file st key fp = (true, st) := by
      simp [IncrementalChecker.can_skip_file, hb]
    refine ⟨by simp [hskip, h], by simp [hskip, h], habsent, ?_⟩
    intro habs hne
    rw [habsent habs] at h
    simp at h
    exact absurd h.symm hne
  · have hb : jsonIsStr fp (IncrementalChecker.file_hash st key) = false := by
      rw [Bool.eq_false_iff, Ne, jsonIsStr_iff]
      exact h
    have hskip : IncrementalChecker.can_skip_file st key fp
        = (false, IncrementalChecker.set_file_hash st key fp) := by
      simp [IncrementalChecker.can_skip_file, hb]
    exact ⟨by simp [hskip, h], by simp [hskip, hupd], habsent,
      fun _ _ => by simp [hskip]⟩

theorem C3_witness :
    ((IncrementalChecker.can_skip_file ⟨Json.str "", []⟩ "k" "abc").1 = true ↔
      IncrementalChecker.file_hash ⟨Json.str "", []⟩ "k" = Json.str "abc")
    ∧ IncrementalChecker.file_hash
        (IncrementalChecker.can_skip_file ⟨Json.str "", []⟩ "k" "abc").2 "k"
        = Json.str "abc"
    ∧ (dictGet (CheckerState.files ⟨Json.str "", []⟩) "k" = none →
        IncrementalChecker.file_hash ⟨Json.str "", []⟩ "k" = Json.str "")
    ∧ (dictGet (CheckerState.files ⟨Json.str "", []⟩) "k" = none → "abc" ≠ "" →
        (IncrementalChecker.can_skip_file ⟨Json.str "", []⟩ "k" "abc").1 = false) :=
  C3_can_skip_file_reports_and_updates ⟨Json.str "", []⟩ "k" "abc"

/-- C4: a differing global fingerprint empties the per-file mapping and
stores the new fingerprint; an equal one leaves the state untouched. -/
theorem C4_check_global_data_invalidates (st : CheckerState) (g : String) :
    (st.globals ≠ Json.str g →
      (IncrementalChecker.check_global_data st g).files = []
      ∧ (IncrementalChecker.check_global_data st g).globals = Json.str g)
    ∧ (st.globals = Json.str g → IncrementalChecker.check_global_data st g = st) := by
  constructor
  · intro h
    have hb : jsonIsStr g st.globals = false := by
      rw [Bool.eq_false_iff, Ne, jsonIsStr_iff]
      exact h
    simp [IncrementalChecker.check_global_data, hb]
  · intro h
    have hb : jsonIsStr g st.globals = true := (jsonIsStr_iff g _).mpr h
    simp [IncrementalChecker.check_global_data, hb]

theorem C4_witness :
    (CheckerState.globals ⟨Json.str "old", []⟩ ≠ Json.str "new" →
      (IncrementalChecker.check_global_data ⟨Json.str "old", []⟩ "new").files = []
      ∧ (IncrementalChecker.check_global_data ⟨Json.str "old", []⟩ "new").globals
          = Json.str "new")
    ∧ (CheckerState.globals ⟨Json.str "old", []⟩ = Json.str "new" →
      IncrementalChecker.check_global_data ⟨Json.str "old", []⟩ "new"
        = ⟨Json.str "old", []⟩) :=
  C4_check_global_data_invalidates ⟨Json.str "old", []⟩ "new"

/-- C1: for a status file that is missing/unreadable/unparseable, or parses
to an object whose `format` value differs from 2, or whose `format` is 2 but
whose `version` value differs from the current tool version, `read` returns
normally with the empty-cache state (`globals = ''`, `files = {}`). -/
theorem C1_read_malformed_status_resets (input : Option Json) (version : String)
    (h : input = none
      ∨ ∃ kvs, input = some (Json.obj kvs)
        ∧ ((∃ v, dictGet kvs "format" = some v ∧ v ≠ Json.num 2)
          ∨ (dictGet kvs "format" = some (Json.num 2)
            ∧ ∃ w, dictGet kvs "version" = some w ∧ w ≠ Json.str version))) :
    IncrementalChecker.read input version = Except.ok IncrementalChecker.reset := by
  rcases h with h | ⟨kvs, hin, hbad⟩
  · rw [h]
    rfl
  · rw [hin]
    rcases hbad with ⟨v, hv, hv2⟩ | ⟨hfmt, w, hw, hwv⟩
    · have hf : isFormat2 v = false := by
        rw [Bool.eq_false_iff, Ne, isFormat2_iff]
        exact hv2
      simp [IncrementalChecker.read, jGetItem, hv, hf, Bind.bind, Except.bind, Pure.pure,
        Except.pure]
    · have hf : isFormat2 (Json.num 2) = true := by
        rw [isFormat2_iff]
      have hv : isVersionStr version w = false := by
        rw [Bool.eq_false_iff, Ne, isVersionStr_iff]
        exact hwv
      simp [IncrementalChecker.read, jGetItem, hfmt, hf, hw, hv, Bind.bind, Except.bind,
        Pure.pure, Except.pure]

theorem C1_witness :
    ((some (Json.obj [("format", Json.num 1)]) : Option Json) = none
      ∨ ∃ kvs, (some (Json.obj [("format", Json.num 1)]) : Option Json)
          = some (Json.obj kvs)
        ∧ ((∃ v, dictGet kvs "format" = some v ∧ v ≠ Json.num 2)
          ∨ (dictGet kvs "format" = some (Json.num 2)
            ∧ ∃ w, dictGet kvs "version" = some w ∧ w ≠ Json.str "7.0")))
    ∧ IncrementalChecker.read (some (Json.obj [("format", Json.num 1)])) "7.0"
        = Except.ok IncrementalChecker.reset := by
  refine ⟨Or.inr ⟨[("format", Json.num 1)], rfl, Or.inl ⟨Json.num 1, by rfl, by simp⟩⟩, ?_⟩
  exact C1_read_malformed_status_resets (some (Json.obj [("format", Json.num 1)])) "7.0"
    (Or.inr ⟨[("format", Json.num 1)], rfl, Or.inl ⟨Json.num 1, by rfl, by simp⟩⟩)

theorem parseNums_numsToJson (n : Numbers) :
    IncrementalChecker.parseNums (IncrementalChecker.numsToJson n) = Except.ok n := by
  simp [IncrementalChecker.parseNums, IncrementalChecker.numsToJson, Numbers.init_args,
    Numbers.ofArgs, List.mapM, List.mapM.loop, Option.bind]

theorem parseIndex_indexToJson (i : IndexInfo) :
    IncrementalChecker.parseIndex (IncrementalChecker.indexToJson i) = Except.ok i := by
  simp [IncrementalChecker.parseIndex, IncrementalChecker.indexToJson, dictGet,
    List.find?, parseNums_numsToJson, Bind.bind, Except.bind]

theorem parseFileInfo_fileInfoToJson (fi : FileInfo) (j : Json)
    (h : IncrementalChecker.fileInfoToJson fi = Except.ok j) :
    IncrementalChecker.parseFileInfo j = Except.ok fi := by
  match hidx : fi.index with
  | none => simp [IncrementalChecker.fileInfoToJson, hidx] at h
  | some idx =>
    rw [IncrementalChecker.fileInfoToJson, hidx] at h
    match hh : fi.hash with
    | none =>
      rw [hh] at h
      simp only [List.nil_append, Except.ok.injEq] at h
      subst h
      simp only [IncrementalChecker.parseFileInfo, dictGet, List.find?, String.reduceEq,
        Bool.false_eq_true]
      simp [parseIndex_indexToJson, Bind.bind, Except.bind]
      cases fi
      simp_all
    | some hv =>
      rw [hh] at h
      simp only [List.cons_append, List.nil_append, Except.ok.injEq] at h
      subst h
      simp only [IncrementalChecker.parseFileInfo, dictGet, List.find?, String.reduceEq,
        Bool.false_eq_true]
      simp [parseIndex_indexToJson, Bind.bind, Except.bind]
      cases fi
      simp_all

theorem parseFilesGo_filesToJson (fs : List (String × FileInfo)) :
    ∀ (js : List (String × Json)) (acc : List (String × FileInfo)),
    IncrementalChecker.filesToJson fs = Except.ok js →
    (fs.map Prod.fst).Nodup →
    (∀ k ∈ fs.map Prod.fst, k ∉ acc.map Prod.fst) →
    IncrementalChecker.parseFilesGo acc js = Except.ok (acc ++ fs) := by
  induction fs with
  | nil =>
    intro js acc h _ _
    simp only [IncrementalChecker.filesToJson, Except.ok.injEq] at h
    subst h
    simp [IncrementalChecker.parseFilesGo]
  | cons p rest ih =>
    intro js acc h hnd hdisj
    obtain ⟨k, fi⟩ := p
    rw [IncrementalChecker.filesToJson] at h
    match hj : IncrementalChecker.fileInfoToJson fi with
    | Except.error e => rw [hj] at h; simp [Bind.bind, Except.bind] at h
    | Except.ok ji =>
      rw [hj] at h
      match hr : IncrementalChecker.filesToJson rest with
      | Except.error e =>
        rw [hr] at h
        simp [Bind.bind, Except.bind] at h
      | Except.ok r =>
        rw [hr] at h
        simp only [Bind.bind, Except.bind, Except.ok.injEq] at h
        subst h
        rw [IncrementalChecker.parseFilesGo]
        rw [parseFileInfo_fileInfoToJson fi ji hj]
        simp only [Bind.bind, Except.bind]
        have hknotacc : k ∉ acc.map Prod.fst := by
          exact hdisj k (by simp)
        rw [dictSet_of_not_mem acc k fi hknotacc]
        simp only [List.map_cons, List.nodup_cons] at hnd
        have := ih r (acc ++ [(k, fi)]) hr hnd.2 (by
          intro k' hk'
          simp only [List.map_append, List.mem_append, List.map_cons, List.map_nil,
            List.mem_singleton, not_or]
          refine ⟨hdisj k' (by simp [hk']), ?_⟩
          intro hkk
          rw [hkk] at hk'
          exact hnd.1 hk')
        rw [this]
        simp

theorem read_write_roundtrip (st : CheckerState) (version : String) (j : Json)
    (hnd : (st.files.map Prod.fst).Nodup)
    (hw : IncrementalChecker.write st version = Except.ok j) :
    IncrementalChecker.read (some j) version = Except.ok st := by
  rw [IncrementalChecker.write] at hw
  match hfs : IncrementalChecker.filesToJson st.files with
  | Except.error e => rw [hfs] at hw; simp [Bind.bind, Except.bind] at hw
  | Except.ok files =>
    rw [hfs] at hw
    simp only [Bind.bind, Except.bind, Except.ok.injEq] at hw
    subst hw
    have hpf := parseFilesGo_filesToJson st.files files [] hfs hnd (by simp)
    simp only [List.nil_append] at hpf
    rw [IncrementalChecker.read]
    simp [jGetItem, dictGet, List.find?, isFormat2, isVersionStr, jItems, hpf,
      Bind.bind, Except.bind, Pure.pure, Except.pure]

theorem can_skip_file_fst_iff (st : CheckerState) (key fp : String) :
    (IncrementalChecker.can_skip_file st key fp).1 = true ↔
      IncrementalChecker.file_hash st key = Json.str fp := by
  by_cases h : IncrementalChecker.file_hash st key = Json.str fp
  · simp [IncrementalChecker.can_skip_file, (jsonIsStr_iff fp _).mpr h, h, jsonIsStr]
  · have hb : jsonIsStr fp (IncrementalChecker.file_hash st key) = false := by
      rw [Bool.eq_false_iff, Ne, jsonIsStr_iff]
      exact h
    simp [IncrementalChecker.can_skip_file, hb, h]

/-- C7: when `write` serializes a checker state whose file keys are distinct
(a Python dict guarantees this) and a fresh checker `read`s the result back
under the same tool version, the state is restored exactly, so
`can_skip_file` on the fresh checker answers true exactly for a computed
fingerprint equal to the one recorded before the write, and false for any
other (mutated source or analysis) fingerprint. -/
theorem C7_write_read_round_trip (st : CheckerState) (version key fp : String)
    (j : Json) (hnd : (st.files.map Prod.fst).Nodup)
    (hw : IncrementalChecker.write st version = Except.ok j) :
    IncrementalChecker.read (some j) version = Except.ok st
    ∧ ∀ st2, IncrementalChecker.read (some j) version = Except.ok st2 →
      ((IncrementalChecker.can_skip_file st2 key fp).1 = true ↔
        IncrementalChecker.file_hash st key = Json.str fp) := by
  have hr := read_write_roundtrip st version j hnd hw
  refine ⟨hr, ?_⟩
  intro st2 hr2
  rw [hr] at hr2
  injection hr2 with h2
  rw [← h2]
  exact can_skip_file_fst_iff st key fp

theorem C7_witness :
    IncrementalChecker.read
      (some (Json.obj
        [("format", Json.num 2), ("version", Json.str "7.0"),
         ("globals", Json.str "g"),
         ("files", Json.obj
           [("f_py", Json.obj
             [("hash", Json.str "abc"),
              ("index", Json.obj
                [("nums", Json.arr [Json.num 3, Json.num 1, Json.num 0, Json.num 0]),
                 ("html_filename", Json.str "f_py.html"),
                 ("relative_filename", Json.str "f.py")])])])])) "7.0"
      = Except.ok ⟨Json.str "g",
          [("f_py", ⟨some (Json.str "abc"),
            some ⟨⟨3, 1, 0, 0⟩, "f_py.html", "f.py"⟩⟩)]⟩
    ∧ ∀ st2, IncrementalChecker.read
        (some (Json.obj
          [("format", Json.num 2), ("version", Json.str "7.0"),
           ("globals", Json.str "g"),
           ("files", Json.obj
             [("f_py", Json.obj
               [("hash", Json.str "abc"),
                ("index", Json.obj
                  [("nums", Json.arr [Json.num 3, Json.num 1, Json.num 0, Json.num 0]),
                   ("html_filename", Json.str "f_py.html"),
                   ("relative_filename", Json.str "f.py")])])])])) "7.0"
        = Except.ok st2 →
      ((IncrementalChecker.can_skip_file st2 "f_py" "abc").1 = true ↔
        IncrementalChecker.file_hash
          ⟨Json.str "g", [("f_py", ⟨some (Json.str "abc"),
            some ⟨⟨3, 1, 0, 0⟩, "f_py.html", "f.py"⟩⟩)]⟩ "f_py" = Json.str "abc") :=
  C7_write_read_round_trip
    ⟨Json.str "g", [("f_py", ⟨some (Json.str "abc"),
      some ⟨⟨3, 1, 0, 0⟩, "f_py.html", "f.py"⟩⟩)]⟩ "7.0" "f_py" "abc" _
    (by simp) rfl

/-- C6: `data_for_file` gives every line at most one category, chosen by the
fixed first-match-wins chain excluded, then missing, then partial branch
(only with arcs measured), then executed, else none; in particular a line
both excluded and missing is categorized as excluded. -/
theorem C6_category_precedence (has_arcs : Bool) (a : AnalysisData) (numLines : Nat) :
    (∀ ld ∈ data_for_file has_arcs a numLines,
      ld.category = categoryFor has_arcs a ld.number)
    ∧ (∀ lineno : Int,
      (lineno ∈ a.excluded →
        categoryFor has_arcs a lineno = some Category.exc)
      ∧ (lineno ∉ a.excluded → lineno ∈ a.missing →
        categoryFor has_arcs a lineno = some Category.mis)
      ∧ (lineno ∉ a.excluded → lineno ∉ a.missing →
          has_arcs = true → (dictGet a.missing_branch_arcs lineno).isSome = true →
        categoryFor has_arcs a lineno = some Category.par)
      ∧ (lineno ∉ a.excluded → lineno ∉ a.missing →
          ¬(has_arcs = true ∧ (dictGet a.missing_branch_arcs lineno).isSome = true) →
          lineno ∈ a.statements →
        categoryFor has_arcs a lineno = some Category.run)
      ∧ (lineno ∉ a.excluded → lineno ∉ a.missing →
          ¬(has_arcs = true ∧ (dictGet a.missing_branch_arcs lineno).isSome = true) →
          lineno ∉ a.statements →
        categoryFor has_arcs a lineno = none)
      ∧ (lineno ∈ a.excluded → lineno ∈ a.missing →
        categoryFor has_arcs a lineno ≠ some Category.mis)) := by
  constructor
  · intro ld hld
    simp only [data_for_file, List.mem_map, List.mem_range] at hld
    obtain ⟨i, _, hi⟩ := hld
    rw [← hi]
  · intro lineno
    refine ⟨?_, ?_, ?_, ?_, ?_, ?_⟩
    · intro h1
      simp [categoryFor, h1]
    · intro h1 h2
      simp [categoryFor, h1, h2]
    · intro h1 h2 h3 h4
      simp [categoryFor, h1, h2, h3, h4]
    · intro h1 h2 h3 h4
      simp [categoryFor, h1, h2, h3, h4]
    · intro h1 h2 h3 h4
      simp [categoryFor, h1, h2, h3, h4]
    · intro h1 _
      simp [categoryFor, h1]

theorem C6_witness :
    (∀ ld ∈ data_for_file true ⟨[1, 2], [2], [2], []⟩ 3,
      ld.category = categoryFor true ⟨[1, 2], [2], [2], []⟩ ld.number)
    ∧ ((2 : Int) ∈ AnalysisData.excluded ⟨[1, 2], [2], [2], []⟩ ∧
        (2 : Int) ∈ AnalysisData.missing ⟨[1, 2], [2], [2], []⟩)
    ∧ categoryFor true ⟨[1, 2], [2], [2], []⟩ 2 = some Category.exc
    ∧ categoryFor true ⟨[1, 2], [2], [2], []⟩ 2 ≠ some Category.mis := by
  have h := C6_category_precedence true ⟨[1, 2], [2], [2], []⟩ 3
  refine ⟨h.1, ⟨by decide, by decide⟩, ((h.2 2).1) (by decide), ?_⟩
  exact (h.2 2).2.2.2.2.2 (by decide) (by decide)

theorem html_file_ok_nums (rs : ReporterState) (f : FileToReport) (rs' : ReporterState)
    (h : html_file rs f = Except.ok rs') :
    rs'.all_files_nums = rs.all_files_nums ++ [f.nums] := by
  rw [html_file] at h
  split at h
  · injection h with h
    rw [← h]
  · split at h
    · injection h with h
      rw [← h]
    · split at h
      · split at h
        · exact absurd h (by simp)
        · injection h with h
          rw [← h]
      · injection h with h
        rw [← h]

theorem html_file_error_shape (rs : ReporterState) (f : FileToReport) (e : PyErr)
    (h : html_file rs f = Except.error e) : e = PyErr.keyError "relative_filename" := by
  rw [html_file] at h
  split at h
  · exact absurd h (by simp)
  · split at h
    · exact absurd h (by simp)
    · split at h
      · split at h
        · injection h with h
          rw [h]
        · exact absurd h (by simp)
      · exact absurd h (by simp)

theorem foldlM_html_file_nums (files : List FileToReport) :
    ∀ (rs rs' : ReporterState), List.foldlM html_file rs files = Except.ok rs' →
    rs'.all_files_nums = rs.all_files_nums ++ files.map (fun q => q.nums) := by
  induction files with
  | nil =>
    intro rs rs' h
    simp only [List.foldlM_nil, pure, Except.pure, Except.ok.injEq] at h
    rw [← h]
    simp
  | cons f rest ih =>
    intro rs rs' h
    rw [List.foldlM_cons] at h
    match hf : html_file rs f with
    | Except.error e => rw [hf] at h; simp [Bind.bind, Except.bind] at h
    | Except.ok rs1 =>
      rw [hf] at h
      simp only [Bind.bind, Except.bind] at h
      rw [ih rs1 rs' h, html_file_ok_nums rs f rs1 hf]
      simp

theorem foldlM_html_file_error (files : List FileToReport) :
    ∀ (rs : ReporterState) (e : PyErr), List.foldlM html_file rs files = Except.error e →
    e = PyErr.keyError "relative_filename" := by
  induction files with
  | nil =>
    intro rs e h
    simp [List.foldlM_nil, pure, Except.pure] at h
  | cons f rest ih =>
    intro rs e h
    rw [List.foldlM_cons] at h
    match hf : html_file rs f with
    | Except.error e' =>
      rw [hf] at h
      simp only [Bind.bind, Except.bind, Except.error.injEq] at h
      rw [← h]
      exact html_file_error_shape rs f e' hf
    | Except.ok rs1 =>
      rw [hf] at h
      simp only [Bind.bind, Except.bind] at h
      exact ih rs1 e h


theorem except_bind_ok {ε α β : Type} (a : α) (f : α → Except ε β) :
    (Except.ok a : Except ε α) >>= f = f a := rfl

theorem except_bind_error {ε α β : Type} (e : ε) (f : α → Except ε β) :
    (Except.error e : Except ε α) >>= f = Except.error e := rfl

theorem C8_no_data_error_iff (skip_covered skip_empty : Bool) (statusInput : Option Json)
    (version globals_fp : String) (files : List FileToReport) (incr0 : CheckerState)
    (hread : IncrementalChecker.read statusInput version = Except.ok incr0) :
    report skip_covered skip_empty statusInput version globals_fp files
      = Except.error (PyErr.coverageError "No data to report.")
    ↔ files = [] := by
  match files with
  | [] =>
    rw [report, hread]
    simp only [except_bind_ok]
    simp [List.foldlM_nil, pure, Except.pure, except_bind_ok]
  | f :: rest =>
    rw [report, hread]
    simp only [except_bind_ok]
    match hfold : List.foldlM html_file
        ⟨skip_covered, skip_empty, [], [], [],
          IncrementalChecker.check_global_data incr0 globals_fp⟩ (f :: rest) with
    | Except.error e =>
      have he := foldlM_html_file_error (f :: rest) _ e hfold
      simp [Bind.bind, Except.bind, he]
    | Except.ok rs' =>
      have hnums := foldlM_html_file_nums (f :: rest) _ rs' hfold
      have hne : rs'.all_files_nums ≠ [] := by
        rw [hnums]
        simp
      simp [Bind.bind, Except.bind, hne]

theorem C8_witness :
    IncrementalChecker.read none "7.0" = Except.ok IncrementalChecker.reset
    ∧ (report false false none "7.0" "g" [] =
        Except.error (PyErr.coverageError "No data to report.") ↔ ([] : List FileToReport) = [])
    ∧ (report false false none "7.0" "g" [⟨"f.py", "f_py", ⟨3, 1, 0, 0⟩, "h1"⟩] =
        Except.error (PyErr.coverageError "No data to report.")
        ↔ [(⟨"f.py", "f_py", ⟨3, 1, 0, 0⟩, "h1"⟩ : FileToReport)] = []) :=
  ⟨rfl,
   C8_no_data_error_iff false false none "7.0" "g" [] IncrementalChecker.reset rfl,
   C8_no_data_error_iff false false none "7.0" "g" [⟨"f.py", "f_py", ⟨3, 1, 0, 0⟩, "h1"⟩]
     IncrementalChecker.reset rfl⟩

/-- C9: `html_file` appends the analysed file's `Numbers` to the running
totals list before the skip-covered and skip-empty checks, a file skipped by
those checks changes nothing else (it enters neither the index summaries nor
the package tree nor the cache), and the totals `report` returns are the sum
of the `Numbers` of every analysed file. -/
theorem C9_skipped_files_counted_in_totals (rs : ReporterState) (f : FileToReport) :
    (∀ rs', html_file rs f = Except.ok rs' →
      rs'.all_files_nums = rs.all_files_nums ++ [f.nums])
    ∧ (rs.skip_covered = true → f.nums.n_missing = 0 → f.nums.n_partial_branches = 0 →
      html_file rs f = Except.ok
        { rs with all_files_nums := rs.all_files_nums ++ [f.nums] })
    ∧ (rs.skip_empty = true → f.nums.n_statements = 0 →
      html_file rs f = Except.ok
        { rs with all_files_nums := rs.all_files_nums ++ [f.nums] })
    ∧ ∀ (sc se : Bool) (si : Option Json) (v g : String) (fs : List FileToReport)
        (res : ReporterState × Numbers),
      report sc se si v g fs = Except.ok res →
      res.2 = Numbers.sum (fs.map (fun q => q.nums)) := by
  refine ⟨fun rs' h => html_file_ok_nums rs f rs' h, ?_, ?_, ?_⟩
  · intro hsc hm hp
    rw [html_file]
    simp [hsc, hm, hp]
  · intro hse hs
    rw [html_file]
    split
    · rfl
    · simp [hse, hs]
  · intro sc se si v g fs res h
    rw [report] at h
    match hread : IncrementalChecker.read si v with
    | Except.error e =>
      rw [hread] at h
      simp [Bind.bind, Except.bind] at h
    | Except.ok incr0 =>
      rw [hread] at h
      simp only [Bind.bind, Except.bind] at h
      match hfold : List.foldlM html_file
          ⟨sc, se, [], [], [], IncrementalChecker.check_global_data incr0 g⟩ fs with
      | Except.error e =>
        rw [hfold] at h
        simp at h
      | Except.ok rs' =>
        rw [hfold] at h
        have hnums := foldlM_html_file_nums fs _ rs' hfold
        by_cases hemp : rs'.all_files_nums.isEmpty
        · simp [hemp] at h
        · simp only [Bool.not_eq_true] at hemp
          simp only [hemp, Bool.false_eq_true, if_false, Except.ok.injEq] at h
          rw [← h]
          simp [hnums]

theorem C9_witness :
    (∀ rs', html_file ⟨true, false, [], [], [], IncrementalChecker.reset⟩
        ⟨"f.py", "f_py", ⟨3, 0, 0, 0⟩, "h1"⟩ = Except.ok rs' →
      rs'.all_files_nums = [] ++ [⟨3, 0, 0, 0⟩])
    ∧ html_file ⟨true, false, [], [], [], IncrementalChecker.reset⟩
        ⟨"f.py", "f_py", ⟨3, 0, 0, 0⟩, "h1"⟩ = Except.ok
        ⟨true, false, [] ++ [⟨3, 0, 0, 0⟩], [], [], IncrementalChecker.reset⟩
    ∧ ∀ res, report true false none "7.0" "g"
        [⟨"f.py", "f_py", ⟨3, 0, 0, 0⟩, "h1"⟩] = Except.ok res →
      res.2 = Numbers.sum [⟨3, 0, 0, 0⟩] := by
  have h := C9_skipped_files_counted_in_totals
    ⟨true, false, [], [], [], IncrementalChecker.reset⟩
    ⟨"f.py", "f_py", ⟨3, 0, 0, 0⟩, "h1"⟩
  refine ⟨h.1, h.2.1 rfl rfl rfl, ?_⟩
  intro res hres
  have := h.2.2.2 true false none "7.0" "g" [⟨"f.py", "f_py", ⟨3, 0, 0, 0⟩, "h1"⟩] res hres
  simpa using this

theorem Numbers.add_assoc (a b c : Numbers) :
    Numbers.add (Numbers.add a b) c = Numbers.add a (Numbers.add b c) := by
  simp [Numbers.add, Int.add_assoc]

theorem Numbers.zero_add (a : Numbers) : Numbers.add Numbers.zero a = a := by
  cases a
  simp [Numbers.add, Numbers.zero]

theorem Numbers.foldl_add_shift (l : List Numbers) :
    ∀ a b : Numbers, l.foldl Numbers.add (Numbers.add a b) =
      Numbers.add a (l.foldl Numbers.add b) := by
  induction l with
  | nil => intro a b; simp
  | cons x rest ih =>
    intro a b
    simp only [List.foldl_cons, Numbers.add_assoc]
    exact ih a (Numbers.add b x)

theorem Numbers.add_zero (a : Numbers) : Numbers.add a Numbers.zero = a := by
  cases a
  simp [Numbers.add, Numbers.zero]

theorem Numbers.foldl_eq_add_sum (l : List Numbers) :
    ∀ b : Numbers, l.foldl Numbers.add b = Numbers.add b (Numbers.sum l) := by
  induction l with
  | nil => intro b; simp [Numbers.sum, Numbers.add_zero]
  | cons x rest ih =>
    intro b
    have hx : Numbers.sum (x :: rest) = Numbers.add x (Numbers.sum rest) := by
      simp only [Numbers.sum, List.foldl_cons]
      rw [ih (Numbers.add Numbers.zero x), Numbers.zero_add]
      rfl
    rw [hx]
    simp only [List.foldl_cons]
    rw [ih (Numbers.add b x), Numbers.add_assoc]

theorem Numbers.sum_cons (x : Numbers) (l : List Numbers) :
    Numbers.sum (x :: l) = Numbers.add x (Numbers.sum l) := by
  simp only [Numbers.sum, List.foldl_cons]
  rw [Numbers.foldl_eq_add_sum l (Numbers.add Numbers.zero x), Numbers.zero_add]
  rfl

theorem Numbers.sum_singleton (x : Numbers) : Numbers.sum [x] = x := by
  rw [Numbers.sum_cons]
  cases x
  simp [Numbers.sum, Numbers.zero, Numbers.add]

theorem Numbers.sum_append (l₁ l₂ : List Numbers) :
    Numbers.sum (l₁ ++ l₂) = Numbers.add (Numbers.sum l₁) (Numbers.sum l₂) := by
  induction l₁ with
  | nil => simp [Numbers.sum, Numbers.zero_add]
  | cons x rest ih =>
    simp only [List.cons_append, Numbers.sum_cons, ih, Numbers.add_assoc]

theorem TreeInfo.nums_mk (n : Numbers) (h r : String) (p : Bool)
    (cs : List (String × TreeInfo)) : (TreeInfo.mk n h r p cs).nums = n := rfl

theorem TreeInfo.children_mk (n : Numbers) (h r : String) (p : Bool)
    (cs : List (String × TreeInfo)) : (TreeInfo.mk n h r p cs).children = cs := rfl

mutual

theorem leaves_sum_branch (t : TreeInfo) (hne : t.children ≠ []) :
    leavesB (sum_branch t) = leavesB t := by
  match t with
  | .mk n h r p cs =>
    match cs with
    | [] => exact absurd rfl hne
    | c :: rest =>
      rw [sum_branch]
      have hsc := leaves_sumChildren (c :: rest)
      match hm : sumChildren (c :: rest) with
      | [] => rw [sumChildren] at hm; exact absurd hm (by simp)
      | x :: xs =>
        rw [hm] at hsc
        simp only [leavesB]
        exact hsc

theorem leaves_sumChildren (cs : List (String × TreeInfo)) :
    leavesChildren (sumChildren cs) = leavesChildren cs := by
  match cs with
  | [] => rfl
  | (k, c) :: rest =>
    rw [sumChildren]
    rw [leavesChildren, leavesChildren]
    rw [leaves_sumChildren rest]
    by_cases hc : c.children.isEmpty
    · rw [if_pos hc]
    · rw [if_neg hc]
      rw [leaves_sum_branch c (by simpa using hc)]

end

mutual

theorem nums_sum_branch (t : TreeInfo) (hne : t.children ≠ []) :
    (sum_branch t).nums = Numbers.sum ((leavesB t).map TreeInfo.nums) := by
  match t with
  | .mk n h r p cs =>
    match cs with
    | [] => exact absurd rfl hne
    | c :: rest =>
      rw [sum_branch]
      rw [TreeInfo.nums_mk]
      rw [nums_sumChildren (c :: rest)]
      have : leavesB (TreeInfo.mk n h r p (c :: rest)) = leavesChildren (c :: rest) := by
        rw [leavesB]
      rw [this]

theorem nums_sumChildren (cs : List (String × TreeInfo)) :
    Numbers.sum ((sumChildren cs).map (fun q => q.2.nums))
      = Numbers.sum ((leavesChildren cs).map TreeInfo.nums) := by
  match cs with
  | [] => rfl
  | (k, c) :: rest =>
    rw [sumChildren, leavesChildren]
    simp only [List.map_cons, List.map_append]
    rw [Numbers.sum_cons, Numbers.sum_append]
    rw [nums_sumChildren rest]
    by_cases hc : c.children.isEmpty
    · rw [if_pos hc]
      have hcleaf : leavesB c = [c] := by
        match c with
        | .mk n2 h2 r2 p2 cs2 =>
          simp only [TreeInfo.children] at hc
          rw [List.isEmpty_iff] at hc
          rw [hc, leavesB]
      rw [hcleaf]
      simp only [List.map_cons, List.map_nil]
      rw [Numbers.sum_singleton]
    · rw [if_neg hc]
      rw [nums_sum_branch c (by simpa using hc)]

end

mutual

theorem summed_sum_branch (t : TreeInfo) (hne : t.children ≠ []) :
    summedB (sum_branch t) = true := by
  match t with
  | .mk n h r p cs =>
    rw [sum_branch, summedB]
    rw [summed_sumChildren cs]
    simp

theorem summed_sumChildren (cs : List (String × TreeInfo)) :
    summedChildren (sumChildren cs) = true := by
  match cs with
  | [] => rfl
  | (k, c) :: rest =>
    rw [sumChildren, summedChildren]
    rw [summed_sumChildren rest]
    by_cases hc : c.children.isEmpty
    · rw [if_pos hc]
      have : summedB c = true := by
        match c with
        | .mk n2 h2 r2 p2 cs2 =>
          simp only [TreeInfo.children] at hc
          rw [List.isEmpty_iff] at hc
          rw [hc, summedB, summedChildren]
          simp
      rw [this]
      rfl
    · rw [if_neg hc]
      rw [summed_sum_branch c (by simpa using hc)]
      rfl

end

theorem summedB_leaf (t : TreeInfo) (h : t.children = []) : summedB t = true := by
  match t with
  | .mk n hf r p cs =>
    rw [TreeInfo.children_mk] at h
    rw [h, summedB, summedChildren]
    simp

theorem leavesB_leaf (t : TreeInfo) (h : t.children = []) : leavesB t = [t] := by
  match t with
  | .mk n hf r p cs =>
    rw [TreeInfo.children_mk] at h
    rw [h, leavesB]

/-- C5: after `sum_package_tree`, every node with children has `Numbers`
equal to the monoid sum of its children's `Numbers`, the leaves (and their
own `Numbers`) are unchanged, and every root's `Numbers` equals the monoid
sum of the `Numbers` of all its leaf descendants. -/
theorem C5_tree_summation (pt : List (String × TreeInfo)) :
    (∀ p ∈ sum_package_tree pt, summedB p.2 = true)
    ∧ leavesTree (sum_package_tree pt) = leavesTree pt
    ∧ (sum_package_tree pt).map (fun p => p.2.nums)
      = pt.map (fun p => Numbers.sum ((leavesB p.2).map TreeInfo.nums)) := by
  refine ⟨?_, ?_, ?_⟩
  · intro p hp
    simp only [sum_package_tree, List.mem_map] at hp
    obtain ⟨q, _, hq⟩ := hp
    rw [← hq]
    by_cases hc : q.2.children.isEmpty
    · simp only [hc, if_true]
      exact summedB_leaf q.2 (by simpa [List.isEmpty_iff] using hc)
    · simp only [hc, if_false]
      exact summed_sum_branch q.2 (by simpa [List.isEmpty_iff] using hc)
  · induction pt with
    | nil => rfl
    | cons q rest ih =>
      obtain ⟨k, t⟩ := q
      simp only [sum_package_tree, List.map_cons] at ih ⊢
      show leavesB (if t.children.isEmpty then t else sum_branch t)
          ++ leavesTree (List.map _ rest) = leavesB t ++ leavesTree rest
      rw [ih]
      by_cases hc : t.children.isEmpty
      · rw [if_pos hc]
      · rw [if_neg hc, leaves_sum_branch t (by simpa [List.isEmpty_iff] using hc)]
  · induction pt with
    | nil => rfl
    | cons q rest ih =>
      obtain ⟨k, t⟩ := q
      simp only [sum_package_tree, List.map_cons] at ih ⊢
      rw [ih]
      by_cases hc : t.children.isEmpty
      · rw [if_pos hc]
        rw [leavesB_leaf t (by simpa [List.isEmpty_iff] using hc)]
        simp only [List.map_cons, List.map_nil]
        rw [Numbers.sum_singleton]
      · rw [if_neg hc, nums_sum_branch t (by simpa [List.isEmpty_iff] using hc)]

theorem C5_witness :
    summedB (TreeInfo.mk ⟨5, 1, 0, 0⟩ "" "a" true
      [("f1.py", TreeInfo.mk ⟨2, 1, 0, 0⟩ "x.html" "f1.py" false []),
       ("b", TreeInfo.mk ⟨3, 0, 0, 0⟩ "" "b" true
         [("f2.py", TreeInfo.mk ⟨3, 0, 0, 0⟩ "y.html" "f2.py" false [])])]) = true
    ∧ leavesTree (sum_package_tree
        [("a", TreeInfo.mk ⟨0, 0, 0, 0⟩ "" "a" true
          [("f1.py", TreeInfo.mk ⟨2, 1, 0, 0⟩ "x.html" "f1.py" false []),
           ("b", TreeInfo.mk ⟨0, 0, 0, 0⟩ "" "b" true
             [("f2.py", TreeInfo.mk ⟨3, 0, 0, 0⟩ "y.html" "f2.py" false [])])])])
      = leavesTree
        [("a", TreeInfo.mk ⟨0, 0, 0, 0⟩ "" "a" true
          [("f1.py", TreeInfo.mk ⟨2, 1, 0, 0⟩ "x.html" "f1.py" false []),
           ("b", TreeInfo.mk ⟨0, 0, 0, 0⟩ "" "b" true
             [("f2.py", TreeInfo.mk ⟨3, 0, 0, 0⟩ "y.html" "f2.py" false [])])])] := by
  have h := C5_tree_summation
    [("a", TreeInfo.mk ⟨0, 0, 0, 0⟩ "" "a" true
      [("f1.py", TreeInfo.mk ⟨2, 1, 0, 0⟩ "x.html" "f1.py" false []),
       ("b", TreeInfo.mk ⟨0, 0, 0, 0⟩ "" "b" true
         [("f2.py", TreeInfo.mk ⟨3, 0, 0, 0⟩ "y.html" "f2.py" false [])])])]
  refine ⟨?_, h.2.1⟩
  exact h.1 ("a", TreeInfo.mk ⟨5, 1, 0, 0⟩ "" "a" true
      [("f1.py", TreeInfo.mk ⟨2, 1, 0, 0⟩ "x.html" "f1.py" false []),
       ("b", TreeInfo.mk ⟨3, 0, 0, 0⟩ "" "b" true
         [("f2.py", TreeInfo.mk ⟨3, 0, 0, 0⟩ "y.html" "f2.py" false [])])])
    (by rw [show sum_package_tree
        [("a", TreeInfo.mk ⟨0, 0, 0, 0⟩ "" "a" true
          [("f1.py", TreeInfo.mk ⟨2, 1, 0, 0⟩ "x.html" "f1.py" false []),
           ("b", TreeInfo.mk ⟨0, 0, 0, 0⟩ "" "b" true
             [("f2.py", TreeInfo.mk ⟨3, 0, 0, 0⟩ "y.html" "f2.py" false [])])])]
        = [("a", TreeInfo.mk ⟨5, 1, 0, 0⟩ "" "a" true
          [("f1.py", TreeInfo.mk ⟨2, 1, 0, 0⟩ "x.html" "f1.py" false []),
           ("b", TreeInfo.mk ⟨3, 0, 0, 0⟩ "" "b" true
             [("f2.py", TreeInfo.mk ⟨3, 0, 0, 0⟩ "y.html" "f2.py" false [])])])] from rfl]
        exact List.mem_cons_self _ _)

mutual

theorem merged_merge_branch_folders (t : TreeInfo) :
    mergedB (merge_branch_folders t) = true := by
  match t with
  | .mk n h r p cs =>
    have hmc := merged_mergeChildren cs
    rw [merge_branch_folders]
    split
    · next path c heq =>
      rw [heq, mergedChildren, mergedChildren] at hmc
      simp only [Bool.and_true] at hmc
      by_cases hc : c.children.isEmpty
      · rw [if_pos hc, mergedB]
        rw [mergedChildren, mergedChildren, hmc]
        simp [singleChildOk, hc]
      · rw [if_neg hc]
        match c with
        | .mk n2 h2 r2 p2 cc =>
          rw [mergedB] at hmc
          rw [mergedB]
          simpa using hmc
    · next cs2 hne =>
      rw [mergedB, hmc, Bool.and_true]
      match hs : mergeChildren cs with
      | [] => rfl
      | [(path, c)] => exact absurd hs (by intro hh; exact hne path c hh)
      | a :: b :: restc => rfl

theorem merged_mergeChildren (cs : List (String × TreeInfo)) :
    mergedChildren (mergeChildren cs) = true := by
  match cs with
  | [] => rfl
  | (k, c) :: rest =>
    rw [mergeChildren, mergedChildren]
    rw [merged_merge_branch_folders c, merged_mergeChildren rest]
    rfl

end

/-- C2: the post-order merge pass collapses every internal node with exactly
one internal child (formalized by the `mergedB` shape invariant holding
everywhere after the pass, whose singleton-child case demands a leaf child),
joining display paths with the separator; a node whose single child is a
leaf is never merged. On the built tree for
`['a/b/c/f1.py', 'a/b/c/f2.py']` the chain collapses to one node with
display path `a/b/c` and two leaf children, while for
`['a/f1.py', 'a/b/f2.py']` node `a` keeps its two distinct levels. -/
theorem C2_merge_single_folders_shape :
    (∀ t : TreeInfo, mergedB (merge_branch_folders t) = true)
    ∧ merge_single_folders (buildTree
        [⟨⟨1, 0, 0, 0⟩, "a_b_c_f1_py.html", "a/b/c/f1.py"⟩,
         ⟨⟨2, 1, 0, 0⟩, "a_b_c_f2_py.html", "a/b/c/f2.py"⟩])
      = [("a", TreeInfo.mk ⟨0, 0, 0, 0⟩ "" "a/b/c" true
          [("f1.py", TreeInfo.mk ⟨1, 0, 0, 0⟩ "a_b_c_f1_py.html" "f1.py" false []),
           ("f2.py", TreeInfo.mk ⟨2, 1, 0, 0⟩ "a_b_c_f2_py.html" "f2.py" false [])])]
    ∧ merge_single_folders (buildTree
        [⟨⟨1, 0, 0, 0⟩, "a_f1_py.html", "a/f1.py"⟩,
         ⟨⟨2, 1, 0, 0⟩, "a_b_f2_py.html", "a/b/f2.py"⟩])
      = [("a", TreeInfo.mk ⟨0, 0, 0, 0⟩ "" "a" true
          [("f1.py", TreeInfo.mk ⟨1, 0, 0, 0⟩ "a_f1_py.html" "f1.py" false []),
           ("b", TreeInfo.mk ⟨0, 0, 0, 0⟩ "" "b" true
             [("f2.py", TreeInfo.mk ⟨2, 1, 0, 0⟩ "a_b_f2_py.html" "f2.py" false [])])])] :=
  ⟨merged_merge_branch_folders, rfl, rfl⟩

theorem mergeChildren_eq_nil (cs : List (String × TreeInfo))
    (h : mergeChildren cs = []) : cs = [] := by
  match cs with
  | [] => rfl
  | (k, c) :: rest => rw [mergeChildren] at h; exact absurd h (by simp)

mutual

theorem leaves_merge_branch_folders (t : TreeInfo) :
    leavesB (merge_branch_folders t) = leavesB t := by
  match t with
  | .mk n h r p cs =>
    have hlc := leaves_mergeChildren cs
    rw [merge_branch_folders]
    split
    · next path c heq =>
      rw [heq] at hlc
      by_cases hc : c.children.isEmpty
      · rw [if_pos hc]
        match cs with
        | [] => rw [mergeChildren] at heq; exact absurd heq (by simp)
        | c0 :: rest0 =>
          rw [leavesB, leavesB]
          exact hlc
      · rw [if_neg hc]
        match cs with
        | [] => rw [mergeChildren] at heq; exact absurd heq (by simp)
        | c0 :: rest0 =>
          match hcc : c.children with
          | [] =>
            rw [hcc] at hc
            simp at hc
          | d :: ds =>
            match c with
            | .mk n2 h2 r2 p2 cc =>
              rw [TreeInfo.children_mk] at hcc
              subst hcc
              rw [leavesChildren, leavesChildren, List.append_nil] at hlc
              rw [show leavesB (TreeInfo.mk n2 h2 r2 p2 (d :: ds))
                  = leavesChildren (d :: ds) from rfl] at hlc
              rw [leavesB, leavesB]
              exact hlc
    · next cs2 hne =>
      match hs : mergeChildren cs with
      | [] =>
        have := mergeChildren_eq_nil cs hs
        subst this
        rfl
      | [(path, c)] => exact absurd hs (by intro hh; exact hne path c hh)
      | a :: b :: restc =>
        rw [hs] at hlc
        match cs with
        | [] => rw [mergeChildren] at hs; exact absurd hs (by simp)
        | c0 :: rest0 =>
          rw [leavesB, leavesB]
          rw [← hs] at hlc ⊢
          exact hlc

theorem leaves_mergeChildren (cs : List (String × TreeInfo)) :
    leavesChildren (mergeChildren cs) = leavesChildren cs := by
  match cs with
  | [] => rfl
  | (k, c) :: rest =>
    rw [mergeChildren, leavesChildren, leavesChildren]
    rw [leaves_merge_branch_folders c, leaves_mergeChildren rest]

end

theorem nums_merge_branch_folders (t : TreeInfo) :
    (merge_branch_folders t).nums = t.nums := by
  match t with
  | .mk n h r p cs =>
    rw [merge_branch_folders]
    split
    · next path c heq =>
      by_cases hc : c.children.isEmpty
      · rw [if_pos hc, TreeInfo.nums_mk, TreeInfo.nums_mk]
      · rw [if_neg hc, TreeInfo.nums_mk, TreeInfo.nums_mk]
    · next cs2 hne => rw [TreeInfo.nums_mk, TreeInfo.nums_mk]

mutual

theorem nodeNums_merge_branch_folders (t : TreeInfo) :
    (nodeNumsB (merge_branch_folders t)).Sublist (nodeNumsB t) := by
  match t with
  | .mk n h r p cs =>
    have hsc := nodeNums_mergeChildren cs
    rw [merge_branch_folders]
    split
    · next path c heq =>
      rw [heq] at hsc
      by_cases hc : c.children.isEmpty
      · rw [if_pos hc]
        rw [nodeNumsB, nodeNumsB]
        exact List.Sublist.cons₂ n hsc
      · rw [if_neg hc]
        rw [nodeNumsB, nodeNumsB]
        refine List.Sublist.cons₂ n (List.Sublist.trans ?_ hsc)
        rw [nodeNumsChildren, nodeNumsChildren, List.append_nil]
        match c with
        | .mk n2 h2 r2 p2 cc =>
          rw [TreeInfo.children_mk, nodeNumsB]
          exact List.sublist_cons_self n2 _
    · next cs2 hne =>
      rw [nodeNumsB, nodeNumsB]
      exact List.Sublist.cons₂ n hsc

theorem nodeNums_mergeChildren (cs : List (String × TreeInfo)) :
    (nodeNumsChildren (mergeChildren cs)).Sublist (nodeNumsChildren cs) := by
  match cs with
  | [] => exact List.Sublist.refl _
  | (k, c) :: rest =>
    rw [mergeChildren, nodeNumsChildren, nodeNumsChildren]
    exact List.Sublist.append (nodeNums_merge_branch_folders c) (nodeNums_mergeChildren rest)

end

/-- C10: the merge pass preserves the tree's content — the leaf nodes
reachable from the roots (with their `Numbers`, file names and paths) are
exactly the same before and after merging, every surviving node keeps its
`Numbers` (the node `Numbers` of the merged tree form a sublist of the
original ones, and each root keeps its own), only children mappings and
display paths change. -/
theorem C10_merge_preserves_content :
    (∀ t : TreeInfo, leavesB (merge_branch_folders t) = leavesB t)
    ∧ (∀ pt : List (String × TreeInfo),
        leavesTree (merge_single_folders pt) = leavesTree pt)
    ∧ (∀ t : TreeInfo, (merge_branch_folders t).nums = t.nums)
    ∧ (∀ t : TreeInfo,
        (nodeNumsB (merge_branch_folders t)).Sublist (nodeNumsB t)) := by
  refine ⟨leaves_merge_branch_folders, ?_, nums_merge_branch_folders,
    nodeNums_merge_branch_folders⟩
  intro pt
  induction pt with
  | nil => rfl
  | cons q rest ih =>
    obtain ⟨k, t⟩ := q
    show leavesB (merge_branch_folders t) ++ leavesTree (merge_single_folders rest)
        = leavesB t ++ leavesTree rest
    rw [ih, leaves_merge_branch_folders t]
